import Mathlib

/-!
Verification development for the TaskManager progress-tracking application
(`src/main.py`). The analytics core — the `SubTask`/`Task` data model, the
remaining-days estimator, the estimated-completion-date estimator, the chart
series builder and the daily "today summary" reporter — is shallowly embedded
below. Python machine values are modelled as follows: `int` as `ℤ`, `float`
arithmetic on exactly-representable computations as `ℚ`, strings as Lean
`String` compared by code points (as Python does), `datetime` objects at
midnight as calendar-date triples or as proleptic-Gregorian ordinals, and a
`datetime` carrying a time of day as a rational ordinal (whole days since
0000-12-31 plus the fraction of the day elapsed).
-/

namespace TaskManager

/-- Python string comparison is lexicographic on code points. `charListLt`
mirrors that order on the underlying character lists: the first differing
character decides, and a proper prefix is smaller. -/
def charListLt : List Char → List Char → Bool
  | _, [] => false
  | [], _ :: _ => true
  | a :: as, b :: bs =>
    if a < b then true
    else if b < a then false
    else charListLt as bs

/-- Python `a < b` on strings. -/
def pyStrLt (a b : String) : Bool := charListLt a.toList b.toList

/-- Python `a <= b` on strings. -/
def pyStrLe (a b : String) : Bool := a == b || pyStrLt a b

/-- A calendar date as carried by a Python `datetime` at midnight. -/
structure Date where
  year : ℕ
  month : ℕ
  day : ℕ
deriving DecidableEq, Repr, Inhabited

/-- Python `datetime` comparison on midnight values: lexicographic on
(year, month, day). -/
def dateLt (a b : Date) : Bool :=
  a.year < b.year ||
    (a.year == b.year &&
      (a.month < b.month || (a.month == b.month && a.day < b.day)))

/-- Non-strict `datetime` comparison. -/
def dateLe (a b : Date) : Bool := a == b || dateLt a b

/-- Gregorian leap-year rule, as used by Python's `datetime`. -/
def isLeap (y : ℕ) : Bool := y % 4 == 0 && (y % 100 != 0 || y % 400 == 0)

/-- Number of days in a month of a given year (Python `calendar` rules,
used implicitly by `datetime`'s validation). -/
def daysInMonth (y m : ℕ) : ℕ :=
  if m == 2 then (if isLeap y then 29 else 28)
  else if m == 4 || m == 6 || m == 9 || m == 11 then 30
  else 31

/-- The dates representable by a Python `datetime`: year 1..9999 and a real
calendar day. -/
def validDate (dt : Date) : Bool :=
  1 ≤ dt.year && dt.year ≤ 9999 &&
  1 ≤ dt.month && dt.month ≤ 12 &&
  1 ≤ dt.day && dt.day ≤ daysInMonth dt.year dt.month

/-- Split a character list at every occurrence of a separator character,
like Python `str.split` with a one-character separator. -/
def splitOnChar (c : Char) : List Char → List (List Char)
  | [] => [[]]
  | x :: xs =>
    if x = c then [] :: splitOnChar c xs
    else
      match splitOnChar c xs with
      | [] => [[x]]
      | h :: t => (x :: h) :: t

/-- Decimal value of a digit-character list, as Python's `int` conversion
inside `strptime` produces it. -/
def charsToNat (l : List Char) : ℕ :=
  l.foldl (fun a c => 10 * a + (c.toNat - 48)) 0

/-- Whether every character is an ASCII digit. -/
def isDigitList (l : List Char) : Bool := l.all (fun c => c.isDigit)

/-- Python `datetime.strptime(s, "%Y-%m-%d")`, returning `none` where Python
raises `ValueError`. The `_strptime` regex demands exactly four digits for
`%Y`, one or two digits valued 1..12 for `%m` and one or two digits valued
1..31 for `%d`, the whole string must be consumed, and the `datetime`
constructor then validates the calendar day and the year range. -/
def parseDate (s : String) : Option Date :=
  match splitOnChar '-' s.toList with
  | [ys, ms, ds] =>
    if isDigitList ys && isDigitList ms && isDigitList ds
        && ys.length == 4
        && (ms.length == 1 || ms.length == 2)
        && (ds.length == 1 || ds.length == 2) then
      let y := charsToNat ys
      let m := charsToNat ms
      let d := charsToNat ds
      if 1 ≤ y && 1 ≤ m && m ≤ 12 && 1 ≤ d && d ≤ daysInMonth y m then
        some ⟨y, m, d⟩
      else none
    else none
  | _ => none

/-- The `n` low decimal digits of `k`, most significant first, as characters.
For `k < 10 ^ n` this is `k` zero-padded to width `n`. -/
def padChars : ℕ → ℕ → List Char
  | 0, _ => []
  | n + 1, k => Nat.digitChar (k / 10 ^ n % 10) :: padChars n k

/-- Python `d.strftime("%Y-%m-%d")`: zero-padded `YYYY-MM-DD`. -/
def formatYMD (dt : Date) : String :=
  ⟨padChars 4 dt.year ++ '-' :: (padChars 2 dt.month ++ '-' :: padChars 2 dt.day)⟩

/-- Python `date.toordinal()`: day number in the proleptic Gregorian
calendar with 0001-01-01 as day 1. -/
def daysBeforeMonth (y m : ℕ) : ℕ :=
  (List.range (m - 1)).foldl (fun acc i => acc + daysInMonth y (i + 1)) 0

/-- Ordinal day number of a date (Python `datetime.toordinal`). -/
def toOrdinal (dt : Date) : ℤ :=
  365 * ((dt.year : ℤ) - 1) + ((dt.year : ℤ) - 1) / 4
    - ((dt.year : ℤ) - 1) / 100 + ((dt.year : ℤ) - 1) / 400
    + (daysBeforeMonth dt.year dt.month : ℤ) + (dt.day : ℤ)

/-- Python 3 `round` to an integer: round half to even. -/
def pyRound (q : ℚ) : ℤ :=
  let f := ⌊q⌋
  let r := q - (f : ℚ)
  if r < 1 / 2 then f
  else if 1 / 2 < r then f + 1
  else if f % 2 = 0 then f else f + 1

/-! ## Data model (`SubTask`, `Task` from `src/main.py`) -/

/-- `SubTask.__init__`: a name, an integer capacity, a stored offset, and a
date-keyed record map. A Python dict is modelled as an insertion-ordered
association list with (in any state reachable by the program) unique keys. -/
structure SubTask where
  name : String
  total : ℤ
  auto_offset : ℤ
  records : List (String × ℤ)
deriving DecidableEq, Repr, Inhabited

/-- Python `records[k]` for a known-present key: the value of the first pair
with that exact key. -/
def lookupRecord (rs : List (String × ℤ)) (k : String) : Option ℤ :=
  match rs.find? (fun p => p.1 == k) with
  | some p => some p.2
  | none => none

/-- Python `k in records`. -/
def hasKey (rs : List (String × ℤ)) (k : String) : Bool :=
  rs.any (fun p => p.1 == k)

/-- Python `records.keys()`. -/
def recordKeys (rs : List (String × ℤ)) : List String := rs.map Prod.fst

/-- Python `max(records.keys())` together with the subsequent dict lookup:
the pair whose key is maximal in string order (`none` on an empty map).
Ties keep the earliest pair, which matches `max` on an iterable. -/
def maxKeyRecord : List (String × ℤ) → Option (String × ℤ)
  | [] => none
  | p :: rest =>
    some (rest.foldl (fun acc q => if pyStrLt acc.1 q.1 then q else acc) p)

/-- `SubTask.progress` (main.py lines 43-48): the value stored under
`max(self.records.keys())`, or 0 with no records. -/
def SubTask.progress (st : SubTask) : ℤ :=
  match maxKeyRecord st.records with
  | none => 0
  | some p => p.2

/-- `SubTask.completed` (main.py lines 50-52): `min(self.progress, self.total)`. -/
def SubTask.completed (st : SubTask) : ℤ := min st.progress st.total

/-- `Task`: name, status, creation date and the owned sub-task list. -/
structure Task where
  name : String
  status : String
  start_date : String
  sub_tasks : List SubTask
deriving DecidableEq, Repr, Inhabited

/-- `Task.total`: sum of sub-task totals. -/
def Task.total (t : Task) : ℤ := (t.sub_tasks.map SubTask.total).sum

/-- `Task.completed`: sum of sub-task `completed`. -/
def Task.completed (t : Task) : ℤ := (t.sub_tasks.map SubTask.completed).sum

/-- `Task.progress`: percentage, 0 when the task total is not positive. -/
def Task.progressPct (t : Task) : ℚ :=
  if 0 < t.total then (t.completed : ℚ) / (t.total : ℚ) * 100 else 0

/-! ## Remaining-days estimator (`Task.remaining_days`, main.py lines 102-172) -/

/-- The set of all record-date strings across the task's sub-tasks
(main.py lines 117-119). A Python `set` is modelled as the deduplicated
list of keys in encounter order; every consumer sorts or folds
order-insensitively. -/
def Task.all_dates (t : Task) : List String :=
  ((t.sub_tasks.map (fun st => recordKeys st.records)).flatten).dedup

/-- `[datetime.strptime(d, "%Y-%m-%d") for d in dates]`: `none` models the
`ValueError` raised on the first unparseable string. -/
def parseAllDates (dates : List String) : Option (List Date) :=
  dates.mapM parseDate

/-- Insert into an ascending list, keeping existing smaller-or-equal
elements in front (a stable insertion). -/
def insertDate (a : Date) : List Date → List Date
  | [] => [a]
  | b :: bs => if dateLt b a then b :: insertDate a bs else a :: b :: bs

/-- Ascending sort of datetimes, modelling Python `sorted`. -/
def sortDates (l : List Date) : List Date := l.foldr insertDate []

/-- The forward-filled task snapshot at date string `dstr` (main.py lines
134-142): for every sub-task take its record at the greatest key that is
string-`<=` `dstr` (0 with none), clamp to the sub-task total, and sum. -/
def snapshotValue (t : Task) (dstr : String) : ℤ :=
  (t.sub_tasks.map (fun st =>
    match maxKeyRecord (st.records.filter (fun p => pyStrLe p.1 dstr)) with
    | some p => min p.2 st.total
    | none => 0)).sum

/-- The snapshot sequence of main.py lines 124-143: parse the distinct
record dates (the whole computation aborts on any unparseable one — the
`try` at line 125), deduplicate the parsed datetimes (they formed a Python
set), sort ascending, and pair each with the snapshot at its zero-padded
rendering. -/
def Task.snapshots (t : Task) : Option (List (Date × ℤ)) :=
  match parseAllDates t.all_dates with
  | none => none
  | some ds =>
    some ((sortDates ds.dedup).map (fun d => (d, snapshotValue t (formatYMD d))))

/-- The window of main.py lines 148-150: `x = max(1, RECENT_X)` and
`snapshots[-x:] if x <= len(snapshots) else snapshots[:]`. -/
def windowSamples (snaps : List (Date × ℤ)) (recentX : ℤ) : List (Date × ℤ) :=
  let x := max 1 recentX
  if x ≤ (snaps.length : ℤ) then snaps.drop (snaps.length - x.toNat) else snaps

/-- `Task.remaining_days` (main.py lines 102-172), with the class variable
`Task.RECENT_X` threaded as the `recentX` parameter. Every guard of the
source is reproduced in order; `0` is the sentinel for "no forecast". -/
def Task.remaining_days (t : Task) (recentX : ℤ) : ℤ :=
  if t.sub_tasks = [] then 0
  else if t.all_dates = [] then 0
  else
    match t.snapshots with
    | none => 0
    | some snaps =>
      if snaps.length < 2 then 0
      else
        let samples := windowSamples snaps recentX
        if samples.length < 2 then 0
        else
          let oldest_val := (samples.headI).2
          let newest_val := (samples.getLastD default).2
          let change := newest_val - oldest_val
          let denom : ℤ := (samples.length : ℤ)
          if denom ≤ 0 then 0
          else
            let avg_daily : ℚ := (change : ℚ) / (denom : ℚ)
            if avg_daily ≤ 0 then 0
            else
              let remaining : ℤ := max 0 (t.total - newest_val)
              max 1 (pyRound ((remaining : ℚ) / avg_daily))

/-! ## Estimated completion date (`Task.estimated_date`, main.py lines 175-234)

`datetime.now()` is modelled as a rational `now`: the proleptic ordinal of
the current day plus the elapsed fraction of that day, so that datetime
subtraction, `timedelta(days=k)` and `.days` (which truncates a positive
span downward) become `ℚ` arithmetic and `Int.floor`. -/

/-- Outcome of `Task.estimated_date`: an uncaught exception, the "N/A"
sentinel, or a completion date given by its ordinal day number (the source
formats it with `strftime`, which is presentation). -/
inductive EstResult
  | exn
  | na
  | done (day : ℤ)
deriving DecidableEq, Repr

/-- `min` of a nonempty integer list (Python `min(sorted_dates)`); the
empty case is unreachable at its use site. -/
def minListI (l : List ℤ) : ℤ :=
  match l with
  | [] => 0
  | h :: tl => tl.foldl min h

/-- The values of a sub-task's records dated at or before `startDate`
(main.py lines 208-209). The parse failure branch is unreachable at the
use site, which is guarded by a whole-task parse. -/
def est_start_records (st : SubTask) (startDate : ℚ) : List ℤ :=
  (st.records.filter (fun p =>
    match parseDate p.1 with
    | some dt => decide ((toOrdinal dt : ℚ) ≤ startDate)
    | none => false)).map Prod.snd

/-- `start_completion` (main.py lines 206-210): per sub-task the maximum
record value dated at or before the start date — unclamped — else 0. -/
def est_start_completion (t : Task) (startDate : ℚ) : ℤ :=
  (t.sub_tasks.map (fun st =>
    match est_start_records st startDate with
    | [] => 0
    | v :: vs => vs.foldl max v)).sum

/-- `min_date = min(sorted_dates)` (main.py line 196), as an ordinal:
the earliest parsed record date. -/
def est_min_ord (ds : List Date) : ℤ := minListI (ds.map toOrdinal)

/-- `start_date = max(min_date, now - timedelta(days=7))` (main.py line 200). -/
def est_start_date (ds : List Date) (now : ℚ) : ℚ :=
  max ((est_min_ord ds : ℤ) : ℚ) (now - 7)

/-- `days_span = (now - start_date).days` (main.py line 216): `timedelta.days`
truncates toward minus infinity, i.e. it is the floor. -/
def est_days_span (ds : List Date) (now : ℚ) : ℤ :=
  ⌊now - est_start_date ds now⌋

/-- `avg_daily = (end_completion - start_completion) / days_span` (main.py
lines 221-222), with `end_completion` the clamped `Task.completed` and
`start_completion` the unclamped per-sub-task maxima. -/
def est_avg (t : Task) (ds : List Date) (now : ℚ) : ℚ :=
  ((t.completed - est_start_completion t (est_start_date ds now) : ℤ) : ℚ) /
    ((est_days_span ds now : ℤ) : ℚ)

/-- `Task.estimated_date` (main.py lines 175-234). -/
def Task.estimated_date (t : Task) (now : ℚ) : EstResult :=
  if t.sub_tasks = [] then .na
  else if t.all_dates = [] then .na
  else
    match parseAllDates t.all_dates with
    | none => .exn
    | some ds =>
      if est_days_span ds now ≤ 0 then .na
      else if est_avg t ds now ≤ 0 then .na
      else .done (⌊now⌋ + max 1 (pyRound
        (((max 0 (t.total - t.completed) : ℤ) : ℚ) / est_avg t ds now)))

/-! ## Chart series builder (`ProgressManager.update_chart`, main.py lines 911-1049)

Only the data computed for the series is embedded: per chart date, the
total-series value and the per-sub-task series values. The Qt widgets,
colors, axes objects and timestamps are presentation. -/

/-- Stable insertion for sorting date strings by their parsed datetime
(`sorted(all_dates, key=lambda d: datetime.strptime(d, "%Y-%m-%d"))`).
The `none` fallback is unreachable at the use site, which is guarded by a
whole-task parse. -/
def insertStrByDate (a : String) : List String → List String
  | [] => [a]
  | b :: bs =>
    if dateLt ((parseDate b).getD default) ((parseDate a).getD default)
    then b :: insertStrByDate a bs
    else a :: b :: bs

/-- The task's distinct record-date strings sorted by parsed date
(main.py line 955). -/
def sortedDateStrs (t : Task) : List String :=
  t.all_dates.foldr insertStrByDate []

/-- One pass of the forward-fill state update (main.py lines 991-993 and
1021-1023): for each sub-task, if the date string is a key of its records,
the carried value becomes the clamped record value, else it is kept. -/
def chartStep (subs : List SubTask) (state : List ℤ) (dstr : String) : List ℤ :=
  (subs.zip state).map (fun p =>
    match lookupRecord p.1.records dstr with
    | some v => min v p.1.total
    | none => p.2)

/-- The chart loop (main.py lines 982-1033): walk the sorted date strings
carrying the forward-fill state, the previous total percentage and the
previous per-sub-task percentages; emit per date the total-series value and
the sub-task series values. In incremental mode every emitted value is the
previous-to-current percentage delta floored at 0. -/
def chartRun (subs : List SubTask) (incremental : Bool) :
    List ℤ → ℚ → List ℚ → List String → List (ℚ × List ℚ)
  | _, _, _, [] => []
  | state, prevT, prevS, dstr :: rest =>
    let state2 := chartStep subs state dstr
    let total_required := (subs.map SubTask.total).sum
    let total_progress : ℚ :=
      if 0 < total_required then ((state2.sum : ℤ) : ℚ) / (total_required : ℚ) * 100 else 0
    let subPercents : List ℚ := (subs.zip state2).map (fun p =>
      if 0 < p.1.total then ((p.2 : ℤ) : ℚ) / (p.1.total : ℚ) * 100 else 0)
    if incremental then
      (max 0 (total_progress - prevT),
        (subPercents.zip prevS).map (fun q => max 0 (q.1 - q.2)))
        :: chartRun subs incremental state2 total_progress subPercents rest
    else
      (total_progress, subPercents)
        :: chartRun subs incremental state2 total_progress subPercents rest

/-- `ProgressManager.update_chart` data: `none` models the `ValueError`
raised by `sorted(..., key=strptime)` on an unparseable date; an empty
date set short-circuits to an empty chart (main.py line 951). -/
def Task.update_chart (t : Task) (incremental : Bool) : Option (List (ℚ × List ℚ)) :=
  if t.all_dates = [] then some []
  else
    match parseAllDates t.all_dates with
    | none => none
    | some _ =>
      some (chartRun t.sub_tasks incremental
        (t.sub_tasks.map (fun _ => 0)) 0 (t.sub_tasks.map (fun _ => (0 : ℚ)))
        (sortedDateStrs t))

/-! ## Daily diff reporter (`ProgressManager.show_today_summary`, main.py
lines 1175-1259). `today` is the parsed form of `now.strftime("%Y-%m-%d")`. -/

/-- The value of the chronologically last element of a dated list, taking
the latest-iterated element among equal dates — exactly what a stable
sort by date followed by `[-1]` selects. -/
def latestBy (l : List (Date × ℤ)) : Option ℤ :=
  match l with
  | [] => none
  | p :: rest =>
    some ((rest.foldl (fun acc q => if dateLe acc.1 q.1 then q else acc) p).2)

/-- Records of a sub-task whose dates parse and fall strictly before today
(main.py lines 1192-1199); unparseable dates are skipped by the inner
`try`/`continue`. -/
def prevRecords (st : SubTask) (today : Date) : List (Date × ℤ) :=
  st.records.filterMap (fun p =>
    match parseDate p.1 with
    | some dt => if dateLt dt today then some (dt, p.2) else none
    | none => none)

/-- Records dated at or before today (main.py lines 1207-1214). -/
def uptoRecords (st : SubTask) (today : Date) : List (Date × ℤ) :=
  st.records.filterMap (fun p =>
    match parseDate p.1 with
    | some dt => if dateLe dt today then some (dt, p.2) else none
    | none => none)

/-- `prev_val` (main.py lines 1201-1204). -/
def prev_val (st : SubTask) (today : Date) : ℤ :=
  (latestBy (prevRecords st today)).getD 0

/-- `curr_val` (main.py lines 1216-1219): defaults to `prev_val` when no
record is dated at or before today. -/
def curr_val (st : SubTask) (today : Date) : ℤ :=
  (latestBy (uptoRecords st today)).getD (prev_val st today)

/-- Clamped percentage of a value against a sub-task total (main.py lines
1222-1223). -/
def subPct (v : ℤ) (total : ℤ) : ℚ :=
  if 0 < total then ((min v total : ℤ) : ℚ) / (total : ℚ) * 100 else 0

/-- Whether a sub-task contributes a line to the summary (main.py lines
1229-1239): it has a record keyed by today's string, and either the floored
change is positive or the clamped percentage moved by more than 1e-6. -/
def subtaskReportable (st : SubTask) (today : Date) : Bool :=
  hasKey st.records (formatYMD today) &&
    (let pv := prev_val st today
     let change := max 0 ((lookupRecord st.records (formatYMD today)).getD 0 - pv)
     0 < change ||
       |subPct (curr_val st today) st.total - subPct pv st.total| > 1 / 1000000)

/-- The reportable sub-tasks of a task, in list order (`subtask_info`). -/
def subtask_infos (t : Task) (today : Date) : List SubTask :=
  t.sub_tasks.filter (fun st => subtaskReportable st today)

/-- `total_before` (main.py line 1226): clamped prior values summed over
all sub-tasks. -/
def total_before (t : Task) (today : Date) : ℤ :=
  (t.sub_tasks.map (fun st => min (prev_val st today) st.total)).sum

/-- `total_after` (main.py line 1227). -/
def total_after (t : Task) (today : Date) : ℤ :=
  (t.sub_tasks.map (fun st => min (curr_val st today) st.total)).sum

/-- `total_required` with the division-by-zero guard (main.py line 1242). -/
def summary_total_required (t : Task) : ℤ :=
  if 0 < t.total then t.total else 1

/-- Whether the task gets a block of lines in the today summary (main.py
line 1248): a reportable sub-task exists, or the aggregate change is
positive, or the aggregate percentage moved by more than 1e-6. -/
def task_reported (t : Task) (today : Date) : Bool :=
  let tb := total_before t today
  let ta := total_after t today
  let tr := summary_total_required t
  decide (subtask_infos t today ≠ []) ||
    decide (0 < ta - tb) ||
    decide (|((ta : ℚ) / (tr : ℚ) * 100) - ((tb : ℚ) / (tr : ℚ) * 100)| > 1 / 1000000)

/-- The sub-task with its unparseable record keys removed — the reference
point for stating which aggregations skip bad records individually. -/
def dropUnparseable (st : SubTask) : SubTask :=
  { st with records := st.records.filter (fun p => (parseDate p.1).isSome) }

/-! ## Configuration loading (`ProgressManager.load_config`, main.py lines
472-484). The file read and JSON decode are summarized by the argument:
`none` when opening or decoding failed, `some none` when the file decoded
but carried no `recent_x` entry, `some (some v)` when it carried integer
`v`. The source applies `int(...)` and stores the value with no range
check. -/
def load_config (fileRecentX : Option (Option ℤ)) (prevRecentX : ℤ) : ℤ :=
  match fileRecentX with
  | none => prevRecentX
  | some none => prevRecentX
  | some (some v) => v

/-! ## Concrete instances used by claim-level theorems and witnesses -/

/-- The sub-task of the spec's worked example: total 100, records
`{"2024-01-01": 10, "2024-01-02": 10, "2024-01-03": 40}`. -/
def exSubC2 : SubTask :=
  ⟨"s", 100, 0, [("2024-01-01", 10), ("2024-01-02", 10), ("2024-01-03", 40)]⟩

/-- A task holding only `exSubC2`. -/
def exTaskC2 : Task := ⟨"t", "Active", "2024-01-01", [exSubC2]⟩

/-- A sub-task with a negative cumulative record (offset subtraction can
produce these through `register_progress`). -/
def exSubNeg : SubTask := ⟨"s", 100, 0, [("2024-01-01", -5)]⟩

/-- First sub-task of the fully-complete example: total 50, finished on the
second day. -/
def exSubA3 : SubTask := ⟨"a", 50, 0, [("2024-01-01", 0), ("2024-01-02", 50)]⟩

/-- Second sub-task of the fully-complete example: total 50, finished. -/
def exSubB3 : SubTask := ⟨"b", 50, 0, [("2024-01-02", 50)]⟩

/-- A fully complete task (both sub-tasks at `completed = 50`) whose recent
windowed trend is strictly positive. -/
def exTaskC3 : Task := ⟨"t", "Active", "2024-01-01", [exSubA3, exSubB3]⟩

/-- A task whose single record value is negative. -/
def exTaskC6 : Task := ⟨"t", "Active", "2024-01-01", [⟨"s", 100, 0, [("2024-01-01", -50)]⟩]⟩

/-- The example sub-task with one unparseable date key added. -/
def exSubC8 : SubTask :=
  ⟨"s", 100, 0, [("2024-01-01", 10), ("2024-01-02", 10), ("2024-01-03", 40), ("bad", 5)]⟩

/-- A task holding only `exSubC8`. -/
def exTaskC8 : Task := ⟨"t", "Active", "2024-01-01", [exSubC8]⟩

/-- A sub-task whose malformed key `"9999-99-99"` compares string-greater
than the well-formed key. -/
def exSubC10 : SubTask := ⟨"s", 100, 0, [("2024-01-05", 3), ("9999-99-99", 7)]⟩

/-- A sub-task whose only record is dated the day before the summary date
used in witnesses. -/
def exSubC7 : SubTask := ⟨"s", 100, 0, [("2024-01-01", 10)]⟩

/-- A task holding only `exSubC7`. -/
def exTaskC7 : Task := ⟨"t", "Active", "2024-01-01", [exSubC7]⟩

/-- A task with a flat two-day history (no growth). -/
def exTaskC4 : Task :=
  ⟨"t", "Active", "2024-01-01",
    [⟨"s", 100, 0, [("2024-01-01", 5), ("2024-01-02", 5)]⟩]⟩

/-! ## Lemmas about the Python string order -/

lemma charListLt_irrefl (l : List Char) : charListLt l l = false := by
  induction l with
  | nil => rfl
  | cons a as ih => simp [charListLt, ih]

lemma charListLt_trans {a b c : List Char} (hab : charListLt a b = true)
    (hbc : charListLt b c = true) : charListLt a c = true := by
  induction a generalizing b c with
  | nil =>
    cases c with
    | nil =>
      cases b with
      | nil => simp [charListLt] at hab
      | cons y ys => simp [charListLt] at hbc
    | cons z zs => simp [charListLt]
  | cons x xs ih =>
    cases b with
    | nil => simp [charListLt] at hab
    | cons y ys =>
      cases c with
      | nil => simp [charListLt] at hbc
      | cons z zs =>
        simp only [charListLt] at hab hbc ⊢
        by_cases hxy : x < y
        · by_cases hyz : y < z
          · simp [lt_trans hxy hyz]
          · by_cases hzy : z < y
            · simp [hyz, hzy] at hbc
            · have hyz2 : y = z := le_antisymm (not_lt.mp hzy) (not_lt.mp hyz)
              subst hyz2
              simp [hxy]
        · by_cases hyx : y < x
          · simp [hxy, hyx] at hab
          · have hxy2 : x = y := le_antisymm (not_lt.mp hyx) (not_lt.mp hxy)
            subst hxy2
            simp only [lt_irrefl, if_false] at hab
            by_cases hxz : x < z
            · simp [hxz]
            · by_cases hzx : z < x
              · simp [hxz, hzx] at hbc
              · have hxz2 : x = z := le_antisymm (not_lt.mp hzx) (not_lt.mp hxz)
                subst hxz2
                simp only [lt_irrefl, if_false] at hbc ⊢
                exact ih hab hbc

lemma charListLt_total (a b : List Char) :
    a = b ∨ charListLt a b = true ∨ charListLt b a = true := by
  induction a generalizing b with
  | nil => cases b <;> simp [charListLt]
  | cons x xs ih =>
    cases b with
    | nil => simp [charListLt]
    | cons y ys =>
      rcases lt_trichotomy x y with h | h | h
      · right; left; simp [charListLt, h]
      · subst h
        rcases ih ys with h2 | h2 | h2
        · subst h2; left; rfl
        · right; left; simp [charListLt, h2]
        · right; right; simp [charListLt, h2]
      · right; right; simp [charListLt, h]

lemma pyStrLt_irrefl (s : String) : pyStrLt s s = false := charListLt_irrefl _

lemma pyStrLt_trans {a b c : String} (hab : pyStrLt a b = true)
    (hbc : pyStrLt b c = true) : pyStrLt a c = true :=
  charListLt_trans hab hbc

lemma pyStrLt_total (a b : String) :
    a = b ∨ pyStrLt a b = true ∨ pyStrLt b a = true := by
  rcases charListLt_total a.toList b.toList with h | h | h
  · exact Or.inl (String.ext h)
  · right; left; exact h
  · right; right; exact h

lemma pyStrLe_refl (s : String) : pyStrLe s s = true := by simp [pyStrLe]

lemma pyStrLe_of_lt {a b : String} (h : pyStrLt a b = true) : pyStrLe a b = true := by
  simp [pyStrLe, h]

lemma pyStrLe_iff {a b : String} : pyStrLe a b = true ↔ a = b ∨ pyStrLt a b = true := by
  simp [pyStrLe, beq_iff_eq]

lemma pyStrLe_trans {a b c : String} (hab : pyStrLe a b = true)
    (hbc : pyStrLe b c = true) : pyStrLe a c = true := by
  rcases pyStrLe_iff.mp hab with h1 | h1 <;> rcases pyStrLe_iff.mp hbc with h2 | h2
  · exact pyStrLe_iff.mpr (Or.inl (h1.trans h2))
  · exact pyStrLe_iff.mpr (Or.inr (h1 ▸ h2))
  · exact pyStrLe_iff.mpr (Or.inr (h2 ▸ h1))
  · exact pyStrLe_iff.mpr (Or.inr (pyStrLt_trans h1 h2))

lemma pyStrLe_of_not_lt {a b : String} (h : ¬ pyStrLt a b = true) : pyStrLe b a = true := by
  rcases pyStrLt_total a b with h1 | h1 | h1
  · exact pyStrLe_iff.mpr (Or.inl h1.symm)
  · exact absurd h1 h
  · exact pyStrLe_of_lt h1

/-- The fold inside `maxKeyRecord` returns an element of the folded
collection whose key every inspected key is `<=`. -/
lemma maxKeyRecord_fold_spec (p : String × ℤ) (l : List (String × ℤ)) :
    ((l.foldl (fun acc q => if pyStrLt acc.1 q.1 then q else acc) p) = p ∨
      (l.foldl (fun acc q => if pyStrLt acc.1 q.1 then q else acc) p) ∈ l) ∧
    pyStrLe p.1 (l.foldl (fun acc q => if pyStrLt acc.1 q.1 then q else acc) p).1 = true ∧
    ∀ q ∈ l, pyStrLe q.1 (l.foldl (fun acc q => if pyStrLt acc.1 q.1 then q else acc) p).1 = true := by
  induction l generalizing p with
  | nil => exact ⟨Or.inl rfl, pyStrLe_refl _, by simp⟩
  | cons q rest ih =>
    simp only [List.foldl_cons]
    by_cases h : pyStrLt p.1 q.1 = true
    · rw [if_pos h]
      obtain ⟨hmem, hle, hall⟩ := ih q
      refine ⟨?_, pyStrLe_trans (pyStrLe_of_lt h) hle, ?_⟩
      · rcases hmem with h1 | h1
        · right; rw [h1]; exact List.mem_cons_self q rest
        · exact Or.inr (List.mem_cons_of_mem q h1)
      · intro r hr
        rcases List.mem_cons.mp hr with h1 | h1
        · exact h1 ▸ hle
        · exact hall r h1
    · rw [if_neg h]
      obtain ⟨hmem, hle, hall⟩ := ih p
      refine ⟨?_, hle, ?_⟩
      · rcases hmem with h1 | h1
        · exact Or.inl h1
        · exact Or.inr (List.mem_cons_of_mem q h1)
      · intro r hr
        rcases List.mem_cons.mp hr with h1 | h1
        · exact pyStrLe_trans (h1 ▸ pyStrLe_of_not_lt h) hle
        · exact hall r h1

/-! ## Lemmas about digits, zero-padding, parsing and formatting -/

lemma digitChar_toNat {i : ℕ} (h : i < 10) : (Nat.digitChar i).toNat = 48 + i := by
  interval_cases i <;> decide

lemma digitChar_isDigit {i : ℕ} (h : i < 10) : (Nat.digitChar i).isDigit = true := by
  interval_cases i <;> decide

lemma digitChar_ne_dash {i : ℕ} (h : i < 10) : Nat.digitChar i ≠ '-' := by
  interval_cases i <;> decide

lemma digitChar_lt_iff {i j : ℕ} (hi : i < 10) (hj : j < 10) :
    Nat.digitChar i < Nat.digitChar j ↔ i < j := by
  interval_cases i <;> interval_cases j <;> simp <;> decide

lemma digitChar_inj {i j : ℕ} (hi : i < 10) (hj : j < 10)
    (h : Nat.digitChar i = Nat.digitChar j) : i = j := by
  interval_cases i <;> interval_cases j <;> first | rfl | (exfalso; revert h; decide)

lemma padChars_length (n k : ℕ) : (padChars n k).length = n := by
  induction n generalizing k with
  | zero => rfl
  | succ n ih => simp [padChars, ih]

lemma padChars_mem_digit {n k : ℕ} {c : Char} (h : c ∈ padChars n k) :
    c.isDigit = true := by
  induction n generalizing k with
  | zero => simp [padChars] at h
  | succ n ih =>
    rcases List.mem_cons.mp h with h1 | h1
    · exact h1 ▸ digitChar_isDigit (Nat.mod_lt _ (by norm_num))
    · exact ih h1

lemma padChars_mem_ne_dash {n k : ℕ} {c : Char} (h : c ∈ padChars n k) :
    c ≠ '-' := by
  induction n generalizing k with
  | zero => simp [padChars] at h
  | succ n ih =>
    rcases List.mem_cons.mp h with h1 | h1
    · exact h1 ▸ digitChar_ne_dash (Nat.mod_lt _ (by norm_num))
    · exact ih h1

/-- The decimal-digit decomposition used by the padding lemmas. -/
lemma mod_pow_succ_ten (k n : ℕ) :
    k % 10 ^ (n + 1) = 10 ^ n * (k / 10 ^ n % 10) + k % 10 ^ n := by
  have e2 := Nat.div_add_mod (k % (10 ^ n * 10)) (10 ^ n)
  rw [Nat.mod_mul_right_mod, Nat.mod_mul_right_div_self] at e2
  rw [pow_succ, ← e2]

lemma charsToNat_fold (n k acc : ℕ) :
    (padChars n k).foldl (fun a c => 10 * a + (c.toNat - 48)) acc =
      acc * 10 ^ n + k % 10 ^ n := by
  induction n generalizing acc with
  | zero => simp [padChars, charsToNat, Nat.mod_one]
  | succ n ih =>
    have hd : (Nat.digitChar (k / 10 ^ n % 10)).toNat = 48 + k / 10 ^ n % 10 :=
      digitChar_toNat (Nat.mod_lt _ (by norm_num))
    simp only [padChars, List.foldl_cons, hd, Nat.add_sub_cancel_left]
    rw [ih, mod_pow_succ_ten, pow_succ]
    ring

lemma charsToNat_padChars (n k : ℕ) : charsToNat (padChars n k) = k % 10 ^ n := by
  simpa using charsToNat_fold n k 0

lemma charsToNat_padChars_of_lt {n k : ℕ} (h : k < 10 ^ n) :
    charsToNat (padChars n k) = k := by
  rw [charsToNat_padChars, Nat.mod_eq_of_lt h]

lemma splitOnChar_no_sep {c : Char} {xs : List Char} (h : ∀ x ∈ xs, x ≠ c) :
    splitOnChar c xs = [xs] := by
  induction xs with
  | nil => rfl
  | cons x rest ih =>
    have hx : x ≠ c := h x (List.mem_cons_self x rest)
    have hr := ih (fun y hy => h y (List.mem_cons_of_mem x hy))
    simp [splitOnChar, hx, hr]

lemma splitOnChar_append_sep {c : Char} {xs rest : List Char}
    (h : ∀ x ∈ xs, x ≠ c) :
    splitOnChar c (xs ++ c :: rest) = xs :: splitOnChar c rest := by
  induction xs with
  | nil => simp [splitOnChar]
  | cons x tl ih =>
    have hx : x ≠ c := h x (List.mem_cons_self x tl)
    have hr := ih (fun y hy => h y (List.mem_cons_of_mem x hy))
    simp only [List.cons_append, splitOnChar, if_neg hx, List.append_eq, hr]

/-- The format/parse round trip: on any date a Python `datetime` can carry,
`strptime` applied to the `strftime` rendering returns the same date. -/
lemma parseDate_formatYMD {dt : Date} (h : validDate dt = true) :
    parseDate (formatYMD dt) = some dt := by
  obtain ⟨y, m, d⟩ := dt
  simp only [validDate, Bool.and_eq_true, decide_eq_true_eq] at h
  obtain ⟨⟨⟨⟨⟨hy1, hy2⟩, hm1⟩, hm2⟩, hd1⟩, hd2⟩ := h
  have hsplit : splitOnChar '-'
      (padChars 4 y ++ '-' :: (padChars 2 m ++ '-' :: padChars 2 d)) =
      [padChars 4 y, padChars 2 m, padChars 2 d] := by
    rw [splitOnChar_append_sep (fun x hx => padChars_mem_ne_dash hx),
      splitOnChar_append_sep (fun x hx => padChars_mem_ne_dash hx),
      splitOnChar_no_sep (fun x hx => padChars_mem_ne_dash hx)]
  have htl : (formatYMD ⟨y, m, d⟩).toList =
      padChars 4 y ++ '-' :: (padChars 2 m ++ '-' :: padChars 2 d) := rfl
  have hyv : charsToNat (padChars 4 y) = y :=
    charsToNat_padChars_of_lt (by omega)
  have hmv : charsToNat (padChars 2 m) = m :=
    charsToNat_padChars_of_lt (by omega)
  have hdv : charsToNat (padChars 2 d) = d :=
    charsToNat_padChars_of_lt (by
      have : daysInMonth y m ≤ 31 := by
        simp only [daysInMonth]
        split_ifs <;> omega
      omega)
  have hdig : ∀ (n k : ℕ), isDigitList (padChars n k) = true := by
    intro n k
    simp only [isDigitList, List.all_eq_true]
    exact fun c hc => padChars_mem_digit hc
  simp only [parseDate, htl, hsplit, hdig, padChars_length]
  norm_num [hyv, hmv, hdv]
  omega

/-! ## The string order on zero-padded dates is the chronological order -/

lemma mul_add_cmp {p x1 r1 x2 r2 : ℕ} (h1 : r1 < p) (h2 : r2 < p) :
    p * x1 + r1 < p * x2 + r2 ↔ x1 < x2 ∨ (x1 = x2 ∧ r1 < r2) := by
  constructor
  · intro h
    rcases lt_trichotomy x1 x2 with hx | hx | hx
    · exact Or.inl hx
    · subst hx; exact Or.inr ⟨rfl, by omega⟩
    · exfalso
      have hc : p * x2 + r2 < p * x1 + r1 := by
        calc p * x2 + r2 < p * x2 + p := by omega
        _ = p * (x2 + 1) := by ring
        _ ≤ p * x1 := Nat.mul_le_mul le_rfl hx
        _ ≤ p * x1 + r1 := Nat.le_add_right _ _
      omega
  · rintro (hx | ⟨hx, hr⟩)
    · calc p * x1 + r1 < p * x1 + p := by omega
      _ = p * (x1 + 1) := by ring
      _ ≤ p * x2 := Nat.mul_le_mul le_rfl hx
      _ ≤ p * x2 + r2 := Nat.le_add_right _ _
    · subst hx; omega

lemma charListLt_padChars (n a b : ℕ) :
    charListLt (padChars n a) (padChars n b) = true ↔ a % 10 ^ n < b % 10 ^ n := by
  induction n with
  | zero => simp [padChars, charListLt, Nat.mod_one]
  | succ n ih =>
    have hda : a / 10 ^ n % 10 < 10 := Nat.mod_lt _ (by norm_num)
    have hdb : b / 10 ^ n % 10 < 10 := Nat.mod_lt _ (by norm_num)
    have hra : a % 10 ^ n < 10 ^ n := Nat.mod_lt _ (by positivity)
    have hrb : b % 10 ^ n < 10 ^ n := Nat.mod_lt _ (by positivity)
    rw [mod_pow_succ_ten, mod_pow_succ_ten, mul_add_cmp hra hrb]
    simp only [padChars, charListLt]
    by_cases h1 : Nat.digitChar (a / 10 ^ n % 10) < Nat.digitChar (b / 10 ^ n % 10)
    · simp only [if_pos h1, eq_self_iff_true, true_iff]
      exact Or.inl ((digitChar_lt_iff hda hdb).mp h1)
    · rw [if_neg h1]
      by_cases h2 : Nat.digitChar (b / 10 ^ n % 10) < Nat.digitChar (a / 10 ^ n % 10)
      · simp only [if_pos h2, Bool.false_eq_true, false_iff]
        have hba := (digitChar_lt_iff hdb hda).mp h2
        rintro (h | ⟨h, _⟩) <;> omega
      · rw [if_neg h2]
        have heq : a / 10 ^ n % 10 = b / 10 ^ n % 10 :=
          digitChar_inj hda hdb (le_antisymm (not_lt.mp h2) (not_lt.mp h1))
        rw [ih]
        constructor
        · intro h; exact Or.inr ⟨heq, h⟩
        · rintro (h | ⟨_, h⟩)
          · omega
          · exact h

lemma padChars_inj {n a b : ℕ} (ha : a < 10 ^ n) (hb : b < 10 ^ n)
    (h : padChars n a = padChars n b) : a = b := by
  have := congrArg charsToNat h
  rwa [charsToNat_padChars_of_lt ha, charsToNat_padChars_of_lt hb] at this

lemma charListLt_append_eqlen {xs ys : List Char} (u v : List Char)
    (h : xs.length = ys.length) :
    charListLt (xs ++ u) (ys ++ v) =
      if xs = ys then charListLt u v else charListLt xs ys := by
  induction xs generalizing ys with
  | nil =>
    cases ys with
    | nil => simp
    | cons y tl => simp at h
  | cons x tl ih =>
    cases ys with
    | nil => simp at h
    | cons y tl2 =>
      simp only [List.length_cons, Nat.add_right_cancel_iff] at h
      by_cases hxy : x < y
      · have hne : x :: tl ≠ y :: tl2 := by
          intro hc
          rw [List.cons.injEq] at hc
          exact absurd (hc.1 ▸ hxy) (lt_irrefl y)
        simp [charListLt, hxy, hne]
      · by_cases hyx : y < x
        · have hne : x :: tl ≠ y :: tl2 := by
            intro hc
            rw [List.cons.injEq] at hc
            exact absurd (hc.1 ▸ hyx) (lt_irrefl x)
          simp [charListLt, hxy, hyx, hne]
        · have hxy2 : x = y := le_antisymm (not_lt.mp hyx) (not_lt.mp hxy)
          subst hxy2
          have hstep : charListLt ((x :: tl) ++ u) ((x :: tl2) ++ v) =
              charListLt (tl ++ u) (tl2 ++ v) := by
            simp [charListLt, lt_self_iff_false]
          rw [hstep, ih h]
          by_cases he : tl = tl2
          · subst he
            simp
          · have hne : x :: tl ≠ x :: tl2 := by
              intro hc
              rw [List.cons.injEq] at hc
              exact he hc.2
            rw [if_neg he, if_neg hne]
            simp [charListLt, lt_self_iff_false]

/-- Python string order on canonically formatted valid dates is the
chronological (`datetime`) order. -/
lemma pyStrLt_formatYMD_iff {a b : Date} (ha : validDate a = true)
    (hb : validDate b = true) :
    pyStrLt (formatYMD a) (formatYMD b) = true ↔ dateLt a b = true := by
  obtain ⟨y1, m1, d1⟩ := a
  obtain ⟨y2, m2, d2⟩ := b
  simp only [validDate, Bool.and_eq_true, decide_eq_true_eq] at ha hb
  obtain ⟨⟨⟨⟨⟨hy1a, hy2a⟩, hm1a⟩, hm2a⟩, hd1a⟩, hd2a⟩ := ha
  obtain ⟨⟨⟨⟨⟨hy1b, hy2b⟩, hm1b⟩, hm2b⟩, hd1b⟩, hd2b⟩ := hb
  have hmax : ∀ yy mm, daysInMonth yy mm ≤ 31 := by
    intro yy mm
    simp only [daysInMonth]
    split_ifs <;> omega
  have hda := hmax y1 m1
  have hdb := hmax y2 m2
  have htla : (formatYMD ⟨y1, m1, d1⟩).toList =
      padChars 4 y1 ++ '-' :: (padChars 2 m1 ++ '-' :: padChars 2 d1) := rfl
  have htlb : (formatYMD ⟨y2, m2, d2⟩).toList =
      padChars 4 y2 ++ '-' :: (padChars 2 m2 ++ '-' :: padChars 2 d2) := rfl
  rw [pyStrLt, htla, htlb,
    charListLt_append_eqlen _ _ (by rw [padChars_length, padChars_length])]
  by_cases hy : padChars 4 y1 = padChars 4 y2
  · have hyeq : y1 = y2 := padChars_inj (by norm_num; omega) (by norm_num; omega) hy
    subst hyeq
    rw [if_pos hy]
    have hstep : charListLt ('-' :: (padChars 2 m1 ++ '-' :: padChars 2 d1))
        ('-' :: (padChars 2 m2 ++ '-' :: padChars 2 d2)) =
        charListLt (padChars 2 m1 ++ '-' :: padChars 2 d1)
          (padChars 2 m2 ++ '-' :: padChars 2 d2) := by
      simp [charListLt, lt_self_iff_false]
    rw [hstep,
      charListLt_append_eqlen _ _ (by rw [padChars_length, padChars_length])]
    by_cases hm : padChars 2 m1 = padChars 2 m2
    · have hmeq : m1 = m2 := padChars_inj (by norm_num; omega) (by norm_num; omega) hm
      subst hmeq
      rw [if_pos hm]
      have hstep2 : charListLt ('-' :: padChars 2 d1) ('-' :: padChars 2 d2) =
          charListLt (padChars 2 d1) (padChars 2 d2) := by
        simp [charListLt, lt_self_iff_false]
      rw [hstep2]
      have := charListLt_padChars 2 d1 d2
      rw [Nat.mod_eq_of_lt (by norm_num; omega), Nat.mod_eq_of_lt (by norm_num; omega)] at this
      rw [this]
      simp [dateLt]
    · rw [if_neg hm]
      have hmne : m1 ≠ m2 := fun hc => hm (hc ▸ rfl)
      have := charListLt_padChars 2 m1 m2
      rw [Nat.mod_eq_of_lt (by norm_num; omega), Nat.mod_eq_of_lt (by norm_num; omega)] at this
      rw [this]
      simp only [dateLt, Bool.or_eq_true, Bool.and_eq_true, decide_eq_true_eq,
        beq_iff_eq]
      constructor
      · intro h
        exact Or.inr ⟨trivial, Or.inl h⟩
      · rintro (h | ⟨hh, h | ⟨h, hd⟩⟩)
        · omega
        · exact h
        · exact absurd h hmne
  · rw [if_neg hy]
    have hyne : y1 ≠ y2 := fun hc => hy (hc ▸ rfl)
    have := charListLt_padChars 4 y1 y2
    rw [Nat.mod_eq_of_lt (by norm_num; omega), Nat.mod_eq_of_lt (by norm_num; omega)] at this
    rw [this]
    simp only [dateLt, Bool.or_eq_true, decide_eq_true_eq, Bool.and_eq_true,
      beq_iff_eq]
    constructor
    · intro h; left; exact h
    · rintro (h | ⟨h, _⟩)
      · exact h
      · exact absurd h hyne

/-- `maxKeyRecord` yields a pair of the list whose key is maximal in the
Python string order. -/
lemma maxKeyRecord_spec {l : List (String × ℤ)} {p : String × ℤ}
    (h : maxKeyRecord l = some p) :
    p ∈ l ∧ ∀ q ∈ l, pyStrLe q.1 p.1 = true := by
  cases l with
  | nil => simp [maxKeyRecord] at h
  | cons r rest =>
    simp only [maxKeyRecord, Option.some_inj] at h
    obtain ⟨hmem, hle, hall⟩ := maxKeyRecord_fold_spec r rest
    subst h
    constructor
    · rcases hmem with h1 | h1
      · rw [h1]; exact List.mem_cons_self r rest
      · exact List.mem_cons_of_mem r h1
    · intro q hq
      rcases List.mem_cons.mp hq with h1 | h1
      · exact h1 ▸ hle
      · exact hall q h1

lemma maxKeyRecord_isSome {l : List (String × ℤ)} (h : l ≠ []) :
    ∃ p, maxKeyRecord l = some p := by
  cases l with
  | nil => exact absurd rfl h
  | cons r rest => exact ⟨_, rfl⟩

/-- `SubTask.progress` on a nonempty record map is the value of a stored
pair whose key string-dominates every stored key. -/
lemma progress_spec (st : SubTask) (h : st.records ≠ []) :
    ∃ p, p ∈ st.records ∧ (∀ q ∈ st.records, pyStrLe q.1 p.1 = true) ∧
      st.progress = p.2 := by
  obtain ⟨p, hp⟩ := maxKeyRecord_isSome h
  obtain ⟨hmem, hall⟩ := maxKeyRecord_spec hp
  exact ⟨p, hmem, hall, by simp [SubTask.progress, hp]⟩

lemma dateLe_refl (dt : Date) : dateLe dt dt = true := by simp [dateLe]

/-! ## Claim C1 -/

/-- C1 as stated is false on the code: `0 ≤ completed` does not hold
"regardless of its record values". A sub-task of total 100 whose only
record value is `-5` has `completed = min(-5, 100) = -5 < 0`. -/
theorem C1_counterexample :
    exSubNeg.completed = -5 ∧ ¬ (0 ≤ exSubNeg.completed) := by
  constructor
  · decide
  · decide

/-- C1 (amended): for every sub-task, `completed = min(latestRecordValue,
total)` where the latest record value is the value stored under the
string-maximal key (0 with no records); `completed ≤ total` holds
unconditionally; and `0 ≤ completed` holds provided the sub-task total and
all its record values are nonnegative (not "regardless of record values"). -/
theorem C1_amended (st : SubTask) :
    (st.records = [] → st.completed = min 0 st.total) ∧
    (st.records ≠ [] → ∃ p, p ∈ st.records ∧
      (∀ q ∈ st.records, pyStrLe q.1 p.1 = true) ∧
      st.completed = min p.2 st.total) ∧
    st.completed ≤ st.total ∧
    (0 ≤ st.total → (∀ q ∈ st.records, 0 ≤ q.2) → 0 ≤ st.completed) := by
  refine ⟨?_, ?_, min_le_right _ _, ?_⟩
  · intro h
    simp [SubTask.completed, SubTask.progress, h, maxKeyRecord]
  · intro h
    obtain ⟨p, hmem, hall, hval⟩ := progress_spec st h
    exact ⟨p, hmem, hall, by rw [SubTask.completed, hval]⟩
  · intro htot hvals
    by_cases h : st.records = []
    · simp [SubTask.completed, SubTask.progress, h, maxKeyRecord]
      omega
    · obtain ⟨p, hmem, hall, hval⟩ := progress_spec st h
      have := hvals p hmem
      rw [SubTask.completed, hval]
      exact le_min this htot

/-- Witness for `C1_amended` at the concrete example sub-task. -/
theorem C1_amended_witness :
    exSubC2.completed ≤ exSubC2.total ∧ 0 ≤ exSubC2.completed :=
  ⟨(C1_amended exSubC2).2.2.1, (C1_amended exSubC2).2.2.2 (by decide) (by decide)⟩

/-! ## Claim C10 -/

/-- C10: `SubTask.progress` is the value stored under the maximal record
key under plain string comparison; when every key is a canonically
formatted valid date this maximal key is also the chronologically latest;
and the malformed key `"9999-99-99"` — which `strptime` rejects — compares
string-greater than `"2024-01-05"` and therefore determines `progress`. -/
theorem C10_thm :
    (∀ st : SubTask, st.records ≠ [] → ∃ p, p ∈ st.records ∧
      (∀ q ∈ st.records, pyStrLe q.1 p.1 = true) ∧ st.progress = p.2) ∧
    (∀ st : SubTask, st.records ≠ [] →
      (∀ q ∈ st.records, ∃ dt, validDate dt = true ∧ q.1 = formatYMD dt) →
      ∃ p dp, p ∈ st.records ∧ parseDate p.1 = some dp ∧ st.progress = p.2 ∧
        ∀ q ∈ st.records, ∀ dq, parseDate q.1 = some dq → dateLe dq dp = true) ∧
    (parseDate "9999-99-99" = none ∧ exSubC10.progress = 7) := by
  refine ⟨fun st h => progress_spec st h, ?_, by decide, by decide⟩
  intro st h hcanon
  obtain ⟨p, hmem, hall, hval⟩ := progress_spec st h
  obtain ⟨dp, hdpv, hdpf⟩ := hcanon p hmem
  have hparse : parseDate p.1 = some dp := by rw [hdpf]; exact parseDate_formatYMD hdpv
  refine ⟨p, dp, hmem, hparse, hval, ?_⟩
  intro q hq dq hdq
  obtain ⟨dq2, hdqv, hdqf⟩ := hcanon q hq
  have hq2 : parseDate q.1 = some dq2 := by rw [hdqf]; exact parseDate_formatYMD hdqv
  have hdqeq : dq = dq2 := by
    rw [hdq] at hq2
    exact Option.some_inj.mp hq2
  subst hdqeq
  rcases pyStrLe_iff.mp (hall q hq) with he | hlt
  · have hx : parseDate q.1 = some dp := by rw [he]; exact hparse
    rw [hdq] at hx
    rw [Option.some_inj.mp hx]
    exact dateLe_refl dp
  · have : dateLt dq dp = true := by
      rw [hdqf, hdpf] at hlt
      exact (pyStrLt_formatYMD_iff hdqv hdpv).mp hlt
    simp [dateLe, this]

/-- Witness for `C10_thm` at the concrete canonical example sub-task. -/
theorem C10_witness :
    (∃ p, p ∈ exSubC2.records ∧
      (∀ q ∈ exSubC2.records, pyStrLe q.1 p.1 = true) ∧ exSubC2.progress = p.2) ∧
    (∃ p dp, p ∈ exSubC2.records ∧ parseDate p.1 = some dp ∧
      exSubC2.progress = p.2 ∧
      ∀ q ∈ exSubC2.records, ∀ dq, parseDate q.1 = some dq → dateLe dq dp = true) := by
  refine ⟨C10_thm.1 exSubC2 (by decide), C10_thm.2.1 exSubC2 (by decide) ?_⟩
  intro q hq
  fin_cases hq
  · exact ⟨⟨2024, 1, 1⟩, by decide, by decide⟩
  · exact ⟨⟨2024, 1, 2⟩, by decide, by decide⟩
  · exact ⟨⟨2024, 1, 3⟩, by decide, by decide⟩

/-! ## Claim C2 -/

/-- C2: on the spec's worked example with window 5, the snapshot sequence
is `[(2024-01-01, 10), (2024-01-02, 10), (2024-01-03, 40)]`, the window
keeps all three snapshots, the average is `(40 - 10) / 3 = 10` (delta over
the snapshot count, not over elapsed calendar days), the remaining amount
is `max 0 (100 - 40) = 60`, and `remaining_days` returns
`max 1 (round (60 / 10)) = 6`. -/
theorem C2_thm :
    exTaskC2.snapshots =
      some [(⟨2024, 1, 1⟩, 10), (⟨2024, 1, 2⟩, 10), (⟨2024, 1, 3⟩, 40)] ∧
    windowSamples [(⟨2024, 1, 1⟩, 10), (⟨2024, 1, 2⟩, 10), (⟨2024, 1, 3⟩, 40)] 5 =
      [(⟨2024, 1, 1⟩, 10), (⟨2024, 1, 2⟩, 10), (⟨2024, 1, 3⟩, 40)] ∧
    ((40 - 10 : ℤ) : ℚ) / ((3 : ℤ) : ℚ) = 10 ∧
    max 0 (exTaskC2.total - 40) = 60 ∧
    max 1 (pyRound (((60 : ℤ) : ℚ) / 10)) = 6 ∧
    exTaskC2.remaining_days 5 = 6 := by
  refine ⟨by decide, by decide, by norm_num, by decide, by norm_num [pyRound], ?_⟩
  have hs : exTaskC2.snapshots =
      some [(⟨2024, 1, 1⟩, 10), (⟨2024, 1, 2⟩, 10), (⟨2024, 1, 3⟩, 40)] := by decide
  rw [Task.remaining_days, hs]
  norm_num [windowSamples, pyRound, exTaskC2, exSubC2, Task.all_dates, Task.total]
  decide

/-! ## Claim C3 -/

/-- C3 describes the intended behavior (remaining-days 0 for a complete
task), but the code returns `max 1 (round (0 / avg)) = 1` whenever the
windowed average is positive: both sub-tasks are at `completed = 50`,
`progress% = 100`, and `remaining_days` evaluates to 1, not 0 — contrary
to the function's own docstring formula `round(remaining / avg)`. -/
theorem C3_code_eval :
    exSubA3.completed = 50 ∧ exSubB3.completed = 50 ∧
    exTaskC3.total = 100 ∧ exTaskC3.progressPct = 100 ∧
    exTaskC3.remaining_days 5 = 1 := by
  refine ⟨by decide, by decide, by decide, ?_, ?_⟩
  · rw [Task.progressPct]
    norm_num [exTaskC3, exSubA3, exSubB3, Task.total, Task.completed,
      SubTask.completed, SubTask.progress, maxKeyRecord, pyStrLt, charListLt,
      show ('1' : Char) < '2' from by decide]
  · have hs : exTaskC3.snapshots =
        some [(⟨2024, 1, 1⟩, 0), (⟨2024, 1, 2⟩, 100)] := by decide
    rw [Task.remaining_days, hs]
    norm_num [windowSamples, pyRound, exTaskC3, exSubA3, exSubB3,
      Task.all_dates, Task.total]
    decide

/-! ## Claim C4 -/

lemma parseAllDates_length {l : List String} {ds : List Date}
    (h : parseAllDates l = some ds) : ds.length = l.length := by
  induction l generalizing ds with
  | nil =>
    simp only [parseAllDates, List.mapM_nil, Option.pure_def, Option.some_inj] at h
    simp [← h]
  | cons a l ih =>
    simp only [parseAllDates, List.mapM_cons, Option.pure_def, Option.bind_eq_bind,
      Option.bind_eq_some, Option.some_inj] at h
    obtain ⟨d, hd, tl, htl, hds⟩ := h
    have := ih htl
    simp [← hds, this]

lemma insertDate_length (a : Date) (l : List Date) :
    (insertDate a l).length = l.length + 1 := by
  induction l with
  | nil => rfl
  | cons b bs ih =>
    rw [insertDate]
    split_ifs with h
    · simp [ih]
    · simp

lemma sortDates_length (l : List Date) : (sortDates l).length = l.length := by
  induction l with
  | nil => rfl
  | cons a l ih =>
    rw [sortDates, List.foldr_cons]
    rw [sortDates] at ih
    rw [insertDate_length, ih]
    simp

/-- C4: for every task and every window size, `remaining_days` returns the
sentinel 0 (it neither raises nor forecasts) whenever fewer than two
distinct record date strings exist across the sub-tasks, and likewise
returns 0 whenever the windowed trend average — the window's value delta
divided by the window length — is nonpositive. -/
theorem C4_thm :
    (∀ (t : Task) (x : ℤ), (t.all_dates).length < 2 → t.remaining_days x = 0) ∧
    (∀ (t : Task) (x : ℤ) (snaps : List (Date × ℤ)), t.snapshots = some snaps →
      2 ≤ (windowSamples snaps x).length →
      ((((windowSamples snaps x).getLastD default).2 -
          ((windowSamples snaps x).headI).2 : ℤ) : ℚ) /
        (((windowSamples snaps x).length : ℤ) : ℚ) ≤ 0 →
      t.remaining_days x = 0) := by
  constructor
  · intro t x hlen
    by_cases hsub : t.sub_tasks = []
    · simp [Task.remaining_days, hsub]
    by_cases hdates : t.all_dates = []
    · simp [Task.remaining_days, hsub, hdates]
    rw [Task.remaining_days, if_neg hsub, if_neg hdates]
    cases hsnaps : t.snapshots with
    | none => rfl
    | some snaps =>
      have hsl : snaps.length < 2 := by
        rw [Task.snapshots] at hsnaps
        cases hp : parseAllDates t.all_dates with
        | none => rw [hp] at hsnaps; exact absurd hsnaps (by simp)
        | some ds =>
          rw [hp] at hsnaps
          simp only [Option.some_inj] at hsnaps
          have h1 : snaps.length = (sortDates ds.dedup).length := by
            rw [← hsnaps, List.length_map]
          have h2 : ds.dedup.length ≤ ds.length :=
            List.Sublist.length_le (List.dedup_sublist ds)
          have h3 : ds.length = t.all_dates.length := parseAllDates_length hp
          rw [h1, sortDates_length]
          omega
      simp [hsl]
  · intro t x snaps hsnaps h2 havg
    by_cases hsub : t.sub_tasks = []
    · simp [Task.remaining_days, hsub]
    by_cases hdates : t.all_dates = []
    · simp [Task.remaining_days, hsub, hdates]
    rw [Task.remaining_days, if_neg hsub, if_neg hdates, hsnaps]
    by_cases hsl : snaps.length < 2
    · simp [hsl]
    by_cases hwl : (windowSamples snaps x).length < 2
    · simp [hsl, hwl]
    simp only [hsl, hwl, if_false]
    by_cases hden : ((windowSamples snaps x).length : ℤ) ≤ 0
    · simp [hden]
    · simp only [hden, if_false]
      simp [hden]
      intro hpos
      exfalso
      push_cast at havg
      simp only [List.getLastD_eq_getLast?] at havg
      linarith

/-- Witness for `C4_thm`: a single-date task and a flat two-date task both
get remaining-days 0. -/
theorem C4_witness :
    exTaskC7.remaining_days 5 = 0 ∧ exTaskC4.remaining_days 5 = 0 := by
  constructor
  · exact C4_thm.1 exTaskC7 5 (by decide)
  · refine C4_thm.2 exTaskC4 5 [(⟨2024, 1, 1⟩, 5), (⟨2024, 1, 2⟩, 5)]
      (by decide) (by decide) ?_
    have hw : windowSamples [(⟨2024, 1, 1⟩, 5), (⟨2024, 1, 2⟩, 5)] 5 =
        [(⟨2024, 1, 1⟩, 5), (⟨2024, 1, 2⟩, 5)] := by decide
    rw [hw]
    norm_num [List.getLastD, List.headI]

/-! ## Claim C5 -/

/-- C5: with well-formed record dates, `estimated_date` never raises; it is
"N/A" when there are no sub-tasks or no records, and otherwise exactly when
`daysSpan ≤ 0` or the average daily increase is nonpositive, where the
start date is `max(earliest record date, now - 7 days)`, the start
completion is the sum of unclamped per-sub-task maxima dated at or before
the start date (`est_start_completion`), and the end completion is the
clamped `Task.completed`; in the remaining case the result is
`now + max(1, round(max(0, total - endCompletion) / average))` as a date. -/
theorem C5_thm :
    (∀ (t : Task) (now : ℚ), t.sub_tasks = [] ∨ t.all_dates = [] →
      t.estimated_date now = .na) ∧
    (∀ (t : Task) (now : ℚ) (ds : List Date),
      t.sub_tasks ≠ [] → t.all_dates ≠ [] →
      parseAllDates t.all_dates = some ds →
      t.estimated_date now ≠ .exn ∧
      (t.estimated_date now = .na ↔
        est_days_span ds now ≤ 0 ∨ est_avg t ds now ≤ 0) ∧
      (0 < est_days_span ds now → 0 < est_avg t ds now →
        t.estimated_date now = .done (⌊now⌋ + max 1 (pyRound
          (((max 0 (t.total - t.completed) : ℤ) : ℚ) / est_avg t ds now))))) := by
  constructor
  · intro t now h
    rcases h with h | h
    · simp [Task.estimated_date, h]
    · rw [Task.estimated_date]
      by_cases hsub : t.sub_tasks = []
      · simp [hsub]
      · simp [hsub, h]
  · intro t now ds hsub hdates hds
    have hred : t.estimated_date now =
        (if est_days_span ds now ≤ 0 then EstResult.na
         else if est_avg t ds now ≤ 0 then EstResult.na
         else EstResult.done (⌊now⌋ + max 1 (pyRound
           (((max 0 (t.total - t.completed) : ℤ) : ℚ) / est_avg t ds now)))) := by
      rw [Task.estimated_date, if_neg hsub, if_neg hdates, hds]
    rw [hred]
    by_cases hspan : est_days_span ds now ≤ 0
    · rw [if_pos hspan]
      exact ⟨by simp, by simp [hspan], fun hs _ => absurd hspan (by omega)⟩
    · rw [if_neg hspan]
      by_cases havg : est_avg t ds now ≤ 0
      · rw [if_pos havg]
        exact ⟨by simp, by simp [havg], fun _ ha => absurd havg (by linarith)⟩
      · rw [if_neg havg]
        refine ⟨by simp, by simp [hspan, havg], fun _ _ => rfl⟩

/-- Witness for `C5_thm` on the worked example at noonless midnight
2024-01-04: days span 3, average 10, result day 738895 = 2024-01-10. -/
theorem C5_witness :
    exTaskC2.estimated_date 738889 ≠ .exn ∧
    exTaskC2.estimated_date 738889 = .done 738895 := by
  have hds : parseAllDates exTaskC2.all_dates =
      some [⟨2024, 1, 1⟩, ⟨2024, 1, 2⟩, ⟨2024, 1, 3⟩] := by decide
  have hmin : est_min_ord [⟨2024, 1, 1⟩, ⟨2024, 1, 2⟩, ⟨2024, 1, 3⟩] = 738886 := by
    decide
  have hstart : est_start_date [⟨2024, 1, 1⟩, ⟨2024, 1, 2⟩, ⟨2024, 1, 3⟩] 738889 =
      738886 := by
    rw [est_start_date, hmin]
    norm_num
  have hspan : est_days_span [⟨2024, 1, 1⟩, ⟨2024, 1, 2⟩, ⟨2024, 1, 3⟩] 738889 = 3 := by
    rw [est_days_span, hstart]
    norm_num
  have hsc : est_start_completion exTaskC2 738886 = 10 := by
    rw [est_start_completion]
    norm_num [exTaskC2, exSubC2, est_start_records,
      show parseDate "2024-01-01" = some ⟨2024, 1, 1⟩ from by decide,
      show parseDate "2024-01-02" = some ⟨2024, 1, 2⟩ from by decide,
      show parseDate "2024-01-03" = some ⟨2024, 1, 3⟩ from by decide,
      show toOrdinal ⟨2024, 1, 1⟩ = 738886 from by decide,
      show toOrdinal ⟨2024, 1, 2⟩ = 738887 from by decide,
      show toOrdinal ⟨2024, 1, 3⟩ = 738888 from by decide]
  have hcompleted : exTaskC2.completed = 40 := by decide
  have havg : est_avg exTaskC2 [⟨2024, 1, 1⟩, ⟨2024, 1, 2⟩, ⟨2024, 1, 3⟩] 738889 = 10 := by
    rw [est_avg, hcompleted, hstart, hsc, hspan]
    norm_num
  obtain ⟨hexn, hna, hdone⟩ :=
    C5_thm.2 exTaskC2 738889 [⟨2024, 1, 1⟩, ⟨2024, 1, 2⟩, ⟨2024, 1, 3⟩]
      (by decide) (by decide) hds
  refine ⟨hexn, ?_⟩
  rw [hdone (by rw [hspan]; norm_num) (by rw [havg]; norm_num)]
  rw [havg, hcompleted]
  norm_num [pyRound, show exTaskC2.total = 100 from by decide,
    show ⌊(738889 : ℚ)⌋ = 738889 from by
      rw [show (738889 : ℚ) = ((738889 : ℤ) : ℚ) by norm_num, Int.floor_intCast]]

/-! ## Claim C6 -/

lemma lookupRecord_mem {rs : List (String × ℤ)} {k : String} {v : ℤ}
    (h : lookupRecord rs k = some v) : ∃ p ∈ rs, p.2 = v := by
  rw [lookupRecord] at h
  cases hf : rs.find? (fun p => p.1 == k) with
  | none => rw [hf] at h; simp at h
  | some p =>
    rw [hf] at h
    simp only [Option.some_inj] at h
    exact ⟨p, List.mem_of_find?_eq_some hf, h⟩

/-- The forward-fill step keeps every carried value within `[0, total]`
when totals and record values are nonnegative. -/
lemma chartStep_bounds :
    ∀ (subs : List SubTask) (state : List ℤ) (dstr : String),
      (∀ st ∈ subs, 0 ≤ st.total) →
      (∀ st ∈ subs, ∀ p ∈ st.records, 0 ≤ p.2) →
      (∀ pr ∈ subs.zip state, 0 ≤ pr.2 ∧ pr.2 ≤ pr.1.total) →
      ∀ pr ∈ subs.zip (chartStep subs state dstr), 0 ≤ pr.2 ∧ pr.2 ≤ pr.1.total
  | [], state, dstr => by simp [chartStep]
  | s :: subs, [], dstr => by simp [chartStep]
  | s :: subs, v :: state, dstr => by
    intro hT hV hstate
    intro pr hpr
    simp only [chartStep, List.zip_cons_cons, List.map_cons] at hpr
    rcases List.mem_cons.mp hpr with h | h
    · subst h
      cases hl : lookupRecord s.records dstr with
      | some w =>
        simp only [hl]
        obtain ⟨p, hpmem, hpv⟩ := lookupRecord_mem hl
        have hw : 0 ≤ w := hpv ▸ hV s (List.mem_cons_self s subs) p hpmem
        have ht : 0 ≤ s.total := hT s (List.mem_cons_self s subs)
        exact ⟨le_min hw ht, min_le_right _ _⟩
      | none =>
        simp only [hl]
        exact hstate (s, v) (by simp)
    · exact chartStep_bounds subs state dstr
        (fun st hst => hT st (List.mem_cons_of_mem s hst))
        (fun st hst => hV st (List.mem_cons_of_mem s hst))
        (fun q hq => hstate q (List.mem_cons_of_mem _ hq))
        pr h

lemma chartStep_length (subs : List SubTask) (state : List ℤ) (dstr : String) :
    (chartStep subs state dstr).length = min subs.length state.length := by
  simp [chartStep]

/-- Pointwise bounds over the sub-task/state zip give the aggregate bounds
used by the total series. -/
lemma zip_sum_bounds :
    ∀ (subs : List SubTask) (state : List ℤ),
      state.length = subs.length →
      (∀ pr ∈ subs.zip state, 0 ≤ pr.2 ∧ pr.2 ≤ pr.1.total) →
      0 ≤ state.sum ∧ state.sum ≤ (subs.map SubTask.total).sum
  | [], [] => by simp
  | [], v :: state => by intro h; simp at h
  | s :: subs, [] => by intro h; simp at h
  | s :: subs, v :: state => by
    intro h hb
    simp only [List.length_cons, Nat.add_right_cancel_iff] at h
    obtain ⟨h0, hv⟩ := hb (s, v) (by simp)
    have h0v : (0 : ℤ) ≤ v := h0
    have hvt : v ≤ s.total := hv
    obtain ⟨ih0, ih1⟩ := zip_sum_bounds subs state h
      (fun pr hpr => hb pr (List.mem_cons_of_mem _ hpr))
    simp only [List.sum_cons, List.map_cons]
    constructor <;> omega

lemma zip_zeros (subs : List SubTask) :
    ∀ pr ∈ subs.zip (subs.map fun _ => (0 : ℤ)), pr.2 = 0 ∧ pr.1 ∈ subs := by
  induction subs with
  | nil => simp
  | cons s subs ih =>
    intro pr hpr
    simp only [List.map_cons, List.zip_cons_cons] at hpr
    rcases List.mem_cons.mp hpr with h | h
    · subst h
      exact ⟨rfl, List.mem_cons_self s subs⟩
    · obtain ⟨h1, h2⟩ := ih pr h
      exact ⟨h1, List.mem_cons_of_mem s h2⟩

/-- In cumulative mode, every emitted chart value lies in `[0, 100]` as
long as totals and record values are nonnegative and the carried state is
within bounds. -/
lemma chartRun_cumulative_bounds (subs : List SubTask)
    (hT : ∀ st ∈ subs, 0 ≤ st.total)
    (hV : ∀ st ∈ subs, ∀ p ∈ st.records, 0 ≤ p.2) :
    ∀ (dates : List String) (state : List ℤ) (prevT : ℚ) (prevS : List ℚ),
      state.length = subs.length →
      (∀ pr ∈ subs.zip state, 0 ≤ pr.2 ∧ pr.2 ≤ pr.1.total) →
      ∀ out ∈ chartRun subs false state prevT prevS dates,
        (0 ≤ out.1 ∧ out.1 ≤ 100) ∧ ∀ v ∈ out.2, 0 ≤ v ∧ v ≤ 100
  | [], state, prevT, prevS => by simp [chartRun]
  | dstr :: rest, state, prevT, prevS => by
    intro hlen hstate
    have hstep := chartStep_bounds subs state dstr hT hV hstate
    have hlen2 : (chartStep subs state dstr).length = subs.length := by
      rw [chartStep_length, hlen]
      omega
    have hsum := zip_sum_bounds subs (chartStep subs state dstr) hlen2 hstep
    intro out hout
    simp only [chartRun, Bool.false_eq_true, if_false] at hout
    rcases List.mem_cons.mp hout with h | h
    · subst h
      constructor
      · by_cases hpos : 0 < (subs.map SubTask.total).sum
        · rw [if_pos hpos]
          have hposq : (0 : ℚ) < ((subs.map SubTask.total).sum : ℚ) := by
            exact_mod_cast hpos
          constructor
          · have h0 : (0 : ℚ) ≤ ((chartStep subs state dstr).sum : ℚ) := by
              exact_mod_cast hsum.1
            exact mul_nonneg (div_nonneg h0 hposq.le) (by norm_num)
          · rw [div_mul_eq_mul_div, div_le_iff₀ hposq]
            have : ((chartStep subs state dstr).sum : ℚ) ≤
                ((subs.map SubTask.total).sum : ℚ) := by exact_mod_cast hsum.2
            nlinarith
        · rw [if_neg hpos]
          norm_num
      · intro v hv
        obtain ⟨pr, hpr, hprv⟩ := List.mem_map.mp hv
        subst hprv
        by_cases hpos : 0 < pr.1.total
        · rw [if_pos hpos]
          have hposq : (0 : ℚ) < (pr.1.total : ℚ) := by exact_mod_cast hpos
          obtain ⟨hb0, hb1⟩ := hstep pr hpr
          constructor
          · have h0 : (0 : ℚ) ≤ ((pr.2 : ℤ) : ℚ) := by exact_mod_cast hb0
            exact mul_nonneg (div_nonneg h0 hposq.le) (by norm_num)
          · rw [div_mul_eq_mul_div, div_le_iff₀ hposq]
            have : ((pr.2 : ℤ) : ℚ) ≤ (pr.1.total : ℚ) := by exact_mod_cast hb1
            nlinarith
        · rw [if_neg hpos]
          norm_num
    · exact chartRun_cumulative_bounds subs hT hV rest
        (chartStep subs state dstr) _ _ hlen2 hstep out h

/-- In incremental mode, every emitted chart value is `max 0 _` and hence
nonnegative, unconditionally. -/
lemma chartRun_incremental_nonneg (subs : List SubTask) :
    ∀ (dates : List String) (state : List ℤ) (prevT : ℚ) (prevS : List ℚ),
      ∀ out ∈ chartRun subs true state prevT prevS dates,
        0 ≤ out.1 ∧ ∀ v ∈ out.2, 0 ≤ v
  | [], state, prevT, prevS => by simp [chartRun]
  | dstr :: rest, state, prevT, prevS => by
    intro out hout
    simp only [chartRun, if_true] at hout
    rcases List.mem_cons.mp hout with h | h
    · subst h
      refine ⟨le_max_left _ _, ?_⟩
      intro v hv
      obtain ⟨q, hq, hqv⟩ := List.mem_map.mp hv
      subst hqv
      exact le_max_left _ _
    · exact chartRun_incremental_nonneg subs rest _ _ _ out h

/-- C6 as stated is false on the code: the cumulative series clamps record
values only from above (`min(value, total)`), so a negative record value
produces chart values below 0. The task with total 100 and the single
record `{"2024-01-01": -50}` charts the point `(-50, [-50])`. -/
theorem C6_counterexample :
    exTaskC6.update_chart false = some [(-50, [-50])] ∧ ((-50 : ℚ) < 0) := by
  refine ⟨?_, by norm_num⟩
  rw [Task.update_chart, if_neg (by decide),
    show parseAllDates exTaskC6.all_dates = some [⟨2024, 1, 1⟩] from by decide]
  norm_num [chartRun, chartStep, exTaskC6, Task.all_dates, recordKeys,
    show sortedDateStrs exTaskC6 = ["2024-01-01"] from by decide,
    show lookupRecord [("2024-01-01", (-50 : ℤ))] "2024-01-01" = some (-50) from by decide]

/-- C6 (amended): cumulative-mode series values (total and per-sub-task)
lie in `[0, 100]` provided every sub-task total and every record value is
nonnegative — not for arbitrary record values; incremental-mode values are
unconditionally nonnegative. -/
theorem C6_amended :
    (∀ (t : Task) (pts : List (ℚ × List ℚ)),
      (∀ st ∈ t.sub_tasks, 0 ≤ st.total) →
      (∀ st ∈ t.sub_tasks, ∀ p ∈ st.records, 0 ≤ p.2) →
      t.update_chart false = some pts →
      ∀ out ∈ pts, (0 ≤ out.1 ∧ out.1 ≤ 100) ∧ ∀ v ∈ out.2, 0 ≤ v ∧ v ≤ 100) ∧
    (∀ (t : Task) (pts : List (ℚ × List ℚ)),
      t.update_chart true = some pts →
      ∀ out ∈ pts, 0 ≤ out.1 ∧ ∀ v ∈ out.2, 0 ≤ v) := by
  constructor
  · intro t pts hT hV hchart
    rw [Task.update_chart] at hchart
    by_cases hdates : t.all_dates = []
    · rw [if_pos hdates] at hchart
      simp only [Option.some_inj] at hchart
      subst hchart
      simp
    · rw [if_neg hdates] at hchart
      cases hp : parseAllDates t.all_dates with
      | none => rw [hp] at hchart; exact absurd hchart (by simp)
      | some ds =>
        rw [hp] at hchart
        simp only [Option.some_inj] at hchart
        subst hchart
        exact chartRun_cumulative_bounds t.sub_tasks hT hV (sortedDateStrs t)
          _ _ _ (by simp) (fun pr hpr => by
            obtain ⟨h0, hmem⟩ := zip_zeros t.sub_tasks pr hpr
            rw [h0]
            exact ⟨le_refl 0, hT pr.1 hmem⟩)
  · intro t pts hchart
    rw [Task.update_chart] at hchart
    by_cases hdates : t.all_dates = []
    · rw [if_pos hdates] at hchart
      simp only [Option.some_inj] at hchart
      subst hchart
      simp
    · rw [if_neg hdates] at hchart
      cases hp : parseAllDates t.all_dates with
      | none => rw [hp] at hchart; exact absurd hchart (by simp)
      | some ds =>
        rw [hp] at hchart
        simp only [Option.some_inj] at hchart
        subst hchart
        exact chartRun_incremental_nonneg t.sub_tasks (sortedDateStrs t) _ _ _

/-- Witness for `C6_amended` at the worked example: both modes evaluated
concretely and their bounds discharged through the theorem. -/
theorem C6_amended_witness :
    (∀ out ∈ [((10 : ℚ), [(10 : ℚ)]), (10, [10]), (40, [40])],
      (0 ≤ out.1 ∧ out.1 ≤ 100) ∧ ∀ v ∈ out.2, 0 ≤ v ∧ v ≤ 100) ∧
    (∀ out ∈ [((10 : ℚ), [(10 : ℚ)]), (0, [0]), (30, [30])],
      0 ≤ out.1 ∧ ∀ v ∈ out.2, 0 ≤ v) := by
  have hparse : parseAllDates exTaskC2.all_dates =
      some [⟨2024, 1, 1⟩, ⟨2024, 1, 2⟩, ⟨2024, 1, 3⟩] := by decide
  have hsorted : sortedDateStrs exTaskC2 =
      ["2024-01-01", "2024-01-02", "2024-01-03"] := by decide
  have hl1 : lookupRecord exSubC2.records "2024-01-01" = some 10 := by decide
  have hl2 : lookupRecord exSubC2.records "2024-01-02" = some 10 := by decide
  have hl3 : lookupRecord exSubC2.records "2024-01-03" = some 40 := by decide
  have hcum : exTaskC2.update_chart false =
      some [((10 : ℚ), [(10 : ℚ)]), (10, [10]), (40, [40])] := by
    rw [Task.update_chart, if_neg (by decide), hparse]
    norm_num [chartRun, chartStep, exTaskC2, hsorted, hl1, hl2, hl3,
      show exSubC2.total = 100 from by decide, min_def]
  have hincr : exTaskC2.update_chart true =
      some [((10 : ℚ), [(10 : ℚ)]), (0, [0]), (30, [30])] := by
    rw [Task.update_chart, if_neg (by decide), hparse]
    norm_num [chartRun, chartStep, exTaskC2, hsorted, hl1, hl2, hl3,
      show exSubC2.total = 100 from by decide, min_def, max_def]
  exact ⟨C6_amended.1 exTaskC2 _ (by decide) (by decide) hcum,
    C6_amended.2 exTaskC2 _ hincr⟩

/-! ## Claim C7 -/

/-- When no record parses to today, the at-or-before-today record set is
the strictly-before-today record set. -/
lemma uptoRecords_eq_prevRecords {st : SubTask} {today : Date}
    (h : ∀ p ∈ st.records, parseDate p.1 ≠ some today) :
    uptoRecords st today = prevRecords st today := by
  rw [uptoRecords, prevRecords]
  apply List.filterMap_congr
  intro p hp
  cases hpd : parseDate p.1 with
  | none => rfl
  | some dt =>
    have hne : dt ≠ today := by
      intro hc
      exact h p hp (hc ▸ hpd)
    have : dateLe dt today = dateLt dt today := by
      simp [dateLe, hne]
    simp only [this]

lemma curr_eq_prev_of_no_today {st : SubTask} {today : Date}
    (h : ∀ p ∈ st.records, parseDate p.1 ≠ some today) :
    curr_val st today = prev_val st today := by
  rw [curr_val, uptoRecords_eq_prevRecords h]
  cases hl : latestBy (prevRecords st today) with
  | none => simp [prev_val, hl]
  | some v => simp [prev_val, hl]

lemma not_reportable_of_no_today {st : SubTask} {today : Date}
    (hvalid : validDate today = true)
    (h : ∀ p ∈ st.records, parseDate p.1 ≠ some today) :
    subtaskReportable st today = false := by
  rw [subtaskReportable]
  have hk : hasKey st.records (formatYMD today) = false := by
    rw [hasKey]
    by_contra hc
    rw [Bool.not_eq_false, List.any_eq_true] at hc
    obtain ⟨p, hp, hpe⟩ := hc
    rw [beq_iff_eq] at hpe
    exact h p hp (by rw [hpe]; exact parseDate_formatYMD hvalid)
  rw [hk]
  simp

/-- C7: the today summary never reports a task whose aggregate clamped
change is zero, whose aggregate percentage moved by at most 1e-6 and which
has no reportable sub-task; in particular a task in which no record parses
to today's date produces no lines at all. -/
theorem C7_thm :
    (∀ (t : Task) (today : Date),
      subtask_infos t today = [] →
      total_after t today - total_before t today = 0 →
      |((total_after t today : ℚ) / (summary_total_required t : ℚ) * 100) -
          ((total_before t today : ℚ) / (summary_total_required t : ℚ) * 100)| ≤
        1 / 1000000 →
      task_reported t today = false) ∧
    (∀ (t : Task) (today : Date), validDate today = true →
      (∀ st ∈ t.sub_tasks, ∀ p ∈ st.records, parseDate p.1 ≠ some today) →
      task_reported t today = false) := by
  have key : ∀ (t : Task) (today : Date),
      subtask_infos t today = [] →
      total_after t today - total_before t today = 0 →
      |((total_after t today : ℚ) / (summary_total_required t : ℚ) * 100) -
          ((total_before t today : ℚ) / (summary_total_required t : ℚ) * 100)| ≤
        1 / 1000000 →
      task_reported t today = false := by
    intro t today h1 h2 h3
    rw [task_reported]
    have hc2 : ¬ (0 < total_after t today - total_before t today) := by omega
    have hc3 : ¬ (|((total_after t today : ℚ) / (summary_total_required t : ℚ) * 100) -
        ((total_before t today : ℚ) / (summary_total_required t : ℚ) * 100)| >
          1 / 1000000) := not_lt.mpr h3
    simp [h1, hc2, hc3]
    rw [← one_div]
    exact h3
  constructor
  · exact key
  · intro t today hvalid h
    have hinfos : subtask_infos t today = [] := by
      rw [subtask_infos, List.filter_eq_nil_iff]
      intro st hst
      rw [not_reportable_of_no_today hvalid (h st hst)]
      simp
    have heq : total_after t today = total_before t today := by
      rw [total_after, total_before]
      apply congrArg
      apply List.map_congr_left
      intro st hst
      rw [curr_eq_prev_of_no_today (h st hst)]
    apply key t today hinfos (by omega)
    rw [heq]
    simp

/-- Witness for `C7_thm`: a task recorded only yesterday is not reported,
through both the threshold route and the no-record-today route. -/
theorem C7_witness :
    task_reported exTaskC7 ⟨2024, 1, 2⟩ = false ∧
    task_reported exTaskC4 ⟨2024, 1, 3⟩ = false := by
  constructor
  · refine C7_thm.1 exTaskC7 ⟨2024, 1, 2⟩ (by decide) (by decide) ?_
    rw [show total_after exTaskC7 ⟨2024, 1, 2⟩ = 10 from by decide,
      show total_before exTaskC7 ⟨2024, 1, 2⟩ = 10 from by decide]
    norm_num
  · exact C7_thm.2 exTaskC4 ⟨2024, 1, 3⟩ (by decide) (by decide)

/-! ## Claim C8 -/

lemma parseAllDates_none {l : List String} {k : String} (hk : k ∈ l)
    (h : parseDate k = none) : parseAllDates l = none := by
  induction l with
  | nil => simp at hk
  | cons a l ih =>
    simp only [parseAllDates, List.mapM_cons, Option.pure_def,
      Option.bind_eq_bind]
    rcases List.mem_cons.mp hk with h1 | h1
    · subst h1
      rw [h]
      rfl
    · cases hpa : parseDate a with
      | none => rfl
      | some d =>
        have := ih h1
        rw [parseAllDates] at this
        rw [this]
        rfl

lemma mem_all_dates {t : Task} {st : SubTask} {p : String × ℤ}
    (hst : st ∈ t.sub_tasks) (hp : p ∈ st.records) : p.1 ∈ t.all_dates := by
  rw [Task.all_dates, List.mem_dedup, List.mem_flatten]
  refine ⟨recordKeys st.records, ?_, ?_⟩
  · exact List.mem_map_of_mem _ hst
  · exact List.mem_map_of_mem _ hp

/-- Filtering away unparseable keys does not change a `filterMap` that
itself drops them. -/
lemma filterMap_drop_unparseable {α : Type} (f : String × ℤ → Option α)
    (hf : ∀ p, parseDate p.1 = none → f p = none) :
    ∀ l : List (String × ℤ),
      (l.filter (fun p => (parseDate p.1).isSome)).filterMap f = l.filterMap f := by
  intro l
  induction l with
  | nil => rfl
  | cons p l ih =>
    cases hpd : parseDate p.1 with
    | none =>
      rw [List.filter_cons, List.filterMap_cons, hf p hpd]
      simp [hpd, ih]
    | some dt =>
      rw [List.filter_cons]
      simp only [hpd, Option.isSome_some, if_true]
      rw [List.filterMap_cons, List.filterMap_cons, ih]

lemma prevRecords_dropUnparseable (st : SubTask) (today : Date) :
    prevRecords (dropUnparseable st) today = prevRecords st today := by
  rw [prevRecords, prevRecords, dropUnparseable]
  exact filterMap_drop_unparseable _ (fun p hp => by simp [hp]) st.records

lemma uptoRecords_dropUnparseable (st : SubTask) (today : Date) :
    uptoRecords (dropUnparseable st) today = uptoRecords st today := by
  rw [uptoRecords, uptoRecords, dropUnparseable]
  exact filterMap_drop_unparseable _ (fun p hp => by simp [hp]) st.records

/-- C8 as stated is false on the code: an unparseable record date is not
skipped individually by the estimators. On the example records plus the
key `"bad"`, `remaining_days` abandons the whole computation and returns
0 — although the same records without `"bad"` forecast 6 — and
`estimated_date` and the chart builder raise. -/
theorem C8_counterexample :
    exTaskC8.remaining_days 5 = 0 ∧
    exTaskC2.remaining_days 5 = 6 ∧
    exTaskC8.estimated_date 738889 = .exn ∧
    exTaskC8.update_chart false = none := by
  refine ⟨by decide, ?_, by decide, by decide⟩
  have hs : exTaskC2.snapshots =
      some [(⟨2024, 1, 1⟩, 10), (⟨2024, 1, 2⟩, 10), (⟨2024, 1, 3⟩, 40)] := by decide
  rw [Task.remaining_days, hs]
  norm_num [windowSamples, pyRound, exTaskC2, exSubC2, Task.all_dates, Task.total]
  decide

/-- C8 (amended): a single unparseable record date makes `remaining_days`
return the sentinel 0 for the whole task, makes `estimated_date` raise and
makes the chart builder raise — only the daily summary skips the record
individually: its per-sub-task prior and current values are unchanged by
deleting every unparseable record. -/
theorem C8_amended :
    (∀ (t : Task) (x : ℤ) (now : ℚ) (incr : Bool),
      (∃ st ∈ t.sub_tasks, ∃ p ∈ st.records, parseDate p.1 = none) →
      t.remaining_days x = 0 ∧ t.estimated_date now = .exn ∧
        t.update_chart incr = none) ∧
    (∀ (st : SubTask) (today : Date),
      prev_val (dropUnparseable st) today = prev_val st today ∧
      curr_val (dropUnparseable st) today = curr_val st today) := by
  constructor
  · intro t x now incr h
    obtain ⟨st, hst, p, hp, hnone⟩ := h
    have hmem : p.1 ∈ t.all_dates := mem_all_dates hst hp
    have hparse : parseAllDates t.all_dates = none := parseAllDates_none hmem hnone
    have hsub : t.sub_tasks ≠ [] := List.ne_nil_of_mem hst
    have hdates : t.all_dates ≠ [] := List.ne_nil_of_mem hmem
    refine ⟨?_, ?_, ?_⟩
    · rw [Task.remaining_days, if_neg hsub, if_neg hdates, Task.snapshots, hparse]
    · rw [Task.estimated_date, if_neg hsub, if_neg hdates, hparse]
    · rw [Task.update_chart, if_neg hdates, hparse]
  · intro st today
    constructor
    · rw [prev_val, prev_val, prevRecords_dropUnparseable]
    · rw [curr_val, curr_val, uptoRecords_dropUnparseable, prev_val, prev_val,
        prevRecords_dropUnparseable]

/-- Witness for `C8_amended` at the task carrying the key `"bad"`. -/
theorem C8_amended_witness :
    (exTaskC8.remaining_days 5 = 0 ∧ exTaskC8.estimated_date 738889 = .exn ∧
      exTaskC8.update_chart false = none) ∧
    prev_val (dropUnparseable exSubC8) ⟨2024, 1, 4⟩ = prev_val exSubC8 ⟨2024, 1, 4⟩ :=
  ⟨C8_amended.1 exTaskC8 5 738889 false
      ⟨exSubC8, by decide, ("bad", 5), by decide, by decide⟩,
    (C8_amended.2 exSubC8 ⟨2024, 1, 4⟩).1⟩

/-! ## Claim C9 -/

/-- C9 fails on the code: `load_config` stores the out-of-range value
`recent_x = 0` unvalidated instead of rejecting it, and `remaining_days`
silently clamps the window below (window 0 behaves exactly as the in-range
window 1), while window 5 on the same task forecasts 6 days. -/
theorem C9_counterexample :
    load_config (some (some 0)) 5 = 0 ∧
    exTaskC2.remaining_days 0 = exTaskC2.remaining_days 1 ∧
    exTaskC2.remaining_days 0 = 0 ∧
    exTaskC2.remaining_days 5 = 6 := by
  refine ⟨rfl, by decide, by decide, ?_⟩
  have hs : exTaskC2.snapshots =
      some [(⟨2024, 1, 1⟩, 10), (⟨2024, 1, 2⟩, 10), (⟨2024, 1, 3⟩, 40)] := by decide
  rw [Task.remaining_days, hs]
  norm_num [windowSamples, pyRound, exTaskC2, exSubC2, Task.all_dates, Task.total]
  decide

/-- The window clamp `x = max(1, recentX)` makes every window size below 1
behave as window 1. -/
lemma windowSamples_le_one {x : ℤ} (hx : x ≤ 1) (s : List (Date × ℤ)) :
    windowSamples s x = windowSamples s 1 := by
  rw [windowSamples, windowSamples, show max 1 x = 1 by omega]
  norm_num

/-- C9 (amended): the configuration loader accepts any integer `recent_x`
without range validation (only the settings dialog's spin box restricts
entry to [1, 365]), and `remaining_days` silently clamps the window size
below at 1: every window size `x ≤ 1` behaves exactly as window 1. -/
theorem C9_amended :
    (∀ (v prev : ℤ), load_config (some (some v)) prev = v) ∧
    (∀ (t : Task) (x : ℤ), x ≤ 1 → t.remaining_days x = t.remaining_days 1) := by
  refine ⟨fun v prev => rfl, ?_⟩
  intro t x hx
  rw [Task.remaining_days, Task.remaining_days]
  simp only [windowSamples_le_one hx]

/-- Witness for `C9_amended` at a concrete out-of-range window size. -/
theorem C9_amended_witness :
    load_config (some (some 0)) 5 = 0 ∧
    exTaskC2.remaining_days 0 = exTaskC2.remaining_days 1 :=
  ⟨C9_amended.1 0 5, C9_amended.2 exTaskC2 0 (by norm_num)⟩

end TaskManager
